import Mathlib

/-
Verification of the xbee_lib framing codec and receive pipeline (src/xbee.c)
against its natural-language specification.

The definitions below are a shallow embedding of src/xbee.c.  Bytes are
modelled as Nat values (< 256 wherever the C type is uint8_t); uint8_t
arithmetic is taken mod 256; the one size_t subtraction in the code that can
underflow is modelled mod 2^64 (subSizeT).  The transport writes performed by
the emitter functions are modelled by the byte stream they put on the wire
(all writes assumed complete, as the claims presuppose).
-/

/-- Escape set test from xbee_write_bytes: 0x7E (delim), 0x7D (escape),
0x11 (XON), 0x13 (XOFF). -/
def needEscape (b : Nat) : Bool :=
  b == 0x7E || b == 0x7D || b == 0x11 || b == 0x13

/-- Wire image of a single byte under the XBee byte-stuffing rule: an escaped
byte becomes 0x7D followed by the byte XOR 0x20, any other byte is literal. -/
def escByte (b : Nat) : List Nat :=
  if needEscape b then [0x7D, b ^^^ 0x20] else [b]

/-- Byte stream put on the wire by xbee_write_bytes (src/xbee.c:188-239).
The C function writes the unescaped run buf[off..i) before each escaped byte
and the final run buf[off..n) at the end; this mirrors that chunked loop
exactly (writeBytesOut_eq_bind below proves it equals the per-byte rule).
The first argument of the recursion counts the remaining loop iterations
(bs.length - i). -/
def writeBytesGo (bs : List Nat) : Nat → Nat → Nat → List Nat
  | 0, _, off => bs.drop off
  | n + 1, i, off =>
    if needEscape (bs.getD i 0) then
      (bs.drop off).take (i - off) ++ 0x7D :: (bs.getD i 0 ^^^ 0x20) ::
        writeBytesGo bs n (i + 1) (i + 1)
    else
      writeBytesGo bs n (i + 1) off

/-- Byte stream written to the transport by xbee_write_bytes for input bs. -/
def writeBytesOut (bs : List Nat) : List Nat :=
  writeBytesGo bs bs.length 0 0

/-- Effect of xbee_write_bytes on the running checksum accumulator:
accum += bytes[i] for every input byte, in uint8_t arithmetic. -/
def sumAccum (accum : Nat) (bs : List Nat) : Nat :=
  bs.foldl (fun a b => (a + b) % 256) accum

/-- Byte stream written by xbee_start_frame (src/xbee.c:243-265): the raw
0x7E delimiter, then the two big-endian length bytes through the escape
codec.  The length parameter is a uint16 in C, hence the mod 65536; the low
byte is length AND 0xFF, i.e. mod 256.  The accumulator is reset to 0 after
the length bytes, so they never contribute to the checksum. -/
def startFrameBytes (totalFrameLength : Nat) : List Nat :=
  0x7E :: writeBytesOut [(totalFrameLength % 65536) >>> 8,
                         (totalFrameLength % 65536) % 256]

/-- Byte stream written by xbee_finish_frame (src/xbee.c:268-273): the byte
0xFF - accum through the escape codec (accum is a uint8_t, so 0xFF - accum
does not wrap). -/
def finishFrameBytes (accum : Nat) : List Nat :=
  writeBytesOut [255 - accum % 256]

/-- Byte stream written by xbee_send_frame (src/xbee.c:275-292): start frame
with the payload length, the payload through the escape codec, then the
checksum byte. -/
def sendFrameBytes (payload : List Nat) : List Nat :=
  startFrameBytes payload.length ++ writeBytesOut payload ++
    finishFrameBytes (sumAccum 0 payload)

/-- Byte stream written by xbee_at_command (src/xbee.c:593-623): frame of
API ID 0x08, frame id, the two command characters, then the parameter. -/
def atCommandBytes (frameId c0 c1 : Nat) (param : List Nat) : List Nat :=
  startFrameBytes (4 + param.length) ++
    writeBytesOut [0x08, frameId, c0, c1] ++ writeBytesOut param ++
    finishFrameBytes (sumAccum (sumAccum 0 [0x08, frameId, c0, c1]) param)

/-- Modelled from the spec: the xbee_address_t tagged union lives in the
missing header xbee.h; spec section 3 gives exactly these four variants. -/
inductive XbeeAddress where
  | addr64 (a : Nat)
  | addr16 (n : Nat)
  | broadcast64
  | broadcast16

/-- The 15-byte header buf assembled by xbee_remote_at_command
(src/xbee.c:657-718).  In the addr16 branch the C code never writes
buf[2..9]; those stack bytes stay uninitialized, modelled by the junk
function.  The addr.address field is a uint64, addr.network_address a
uint16 (mod 65536); stores into uint8_t slots are mod 256.  The final
else branch asserts XBEE_64_BIT_BROADCAST and emits the broadcast header. -/
def remoteAtHeader (junk : Nat → Nat) (addr : XbeeAddress)
    (frameId opts c0 c1 : Nat) : List Nat :=
  match addr with
  | .addr64 a =>
    [0x17, frameId,
     (a >>> 56) % 256, (a >>> 48) % 256, (a >>> 40) % 256, (a >>> 32) % 256,
     (a >>> 24) % 256, (a >>> 16) % 256, (a >>> 8) % 256, a % 256,
     0xFF, 0xFE, opts, c0, c1]
  | .addr16 n =>
    [0x17, frameId,
     junk 2, junk 3, junk 4, junk 5, junk 6, junk 7, junk 8, junk 9,
     ((n % 65536) >>> 8) % 256, (n % 65536) % 256, opts, c0, c1]
  | _ =>
    [0x17, frameId, 0, 0, 0, 0, 0, 0, 0xFF, 0xFF, 0xFF, 0xFE, opts, c0, c1]

/-- Byte stream written by xbee_remote_at_command: frame of declared length
15 + param size, header as above, then the parameter bytes. -/
def remoteAtCommandBytes (junk : Nat → Nat) (addr : XbeeAddress)
    (opts frameId c0 c1 : Nat) (param : List Nat) : List Nat :=
  startFrameBytes (15 + param.length) ++
    writeBytesOut (remoteAtHeader junk addr frameId opts c0 c1) ++
    writeBytesOut param ++
    finishFrameBytes
      (sumAccum (sumAccum 0 (remoteAtHeader junk addr frameId opts c0 c1)) param)

/-- Receive-side driver state (the fields of xbee_interface_t that the
receive pipeline uses): ring capacity recv_max_size, head index recv_idx,
byte count recv_size, and the backing storage recv modelled as a function
from physical index to byte. -/
structure XbeeIf where
  cap : Nat
  recvIdx : Nat
  recvSize : Nat
  mem : Nat → Nat

/-- A size_t subtraction, i.e. subtraction mod 2^64.  The final
recv_size -= idx in xbee_decode_frame has no guard against idx exceeding
recv_size, so the wraparound is modelled faithfully. -/
def subSizeT (a b : Nat) : Nat :=
  (a + (2 ^ 64 - b % 2 ^ 64)) % 2 ^ 64

/-- xbee_get_byte (src/xbee.c:309-323): read logical offset i, physical
index i + recv_idx with a single conditional wrap subtraction. -/
def getByteAt (st : XbeeIf) (i : Nat) : Nat :=
  if st.cap ≤ i + st.recvIdx then st.mem (i + st.recvIdx - st.cap)
  else st.mem (i + st.recvIdx)

/-- xbee_drop_byte (src/xbee.c:295-306): advance recv_idx with wrap to 0,
decrement recv_size (the C code asserts recv_size > 0 at entry). -/
def dropByte (st : XbeeIf) : XbeeIf :=
  { st with
    recvIdx := if st.cap ≤ st.recvIdx + 1 then 0 else st.recvIdx + 1,
    recvSize := st.recvSize - 1 }

/-- Result of xbee_get_next_byte: ok carries the un-escaped byte and the
advanced idx; foundStart is XBEE_ERR_FOUND_START and notEnough is
XBEE_NOT_ENOUGH_DATA.  Both error constructors record the value the C code
stored through byte_out before returning (none when nothing was stored),
because in the decode loop byte_out aliases the caller's output buffer. -/
inductive NextRes where
  | ok (b : Nat) (idx : Nat)
  | foundStart (w : Nat)
  | notEnough (w : Option Nat)

/-- xbee_get_next_byte (src/xbee.c:330-371): un-escape one byte at logical
offset idx.  A 0x7E is a mid-frame start delimiter; a 0x7D consumes the
following byte XOR 0x20 (and signals foundStart if that byte is 0x7E). -/
def getNextByte (st : XbeeIf) (idx : Nat) : NextRes :=
  if st.recvSize ≤ idx then .notEnough none
  else if getByteAt st idx = 0x7E then .foundStart (getByteAt st idx)
  else if getByteAt st idx = 0x7D then
    if st.recvSize ≤ idx + 1 then .notEnough (some (getByteAt st idx))
    else if getByteAt st (idx + 1) = 0x7E then .foundStart (getByteAt st (idx + 1))
    else .ok (getByteAt st (idx + 1) ^^^ 0x20) (idx + 2)
  else .ok (getByteAt st idx) (idx + 1)

/-- xbee_find_if_have_next_delim (src/xbee.c:373-384): is there a 0x7E at
some logical offset i with 1 <= i < recv_size. -/
def findIfHaveNextDelim (st : XbeeIf) : Bool :=
  (List.range' 1 (st.recvSize - 1)).any (fun i => getByteAt st i == 0x7E)

/-- Pointwise function update used to model stores into the caller's output
buffer bytes_out. -/
def updateFn (out : Nat → Nat) (i v : Nat) : Nat → Nat :=
  fun j => if j = i then v else out j

/-- Result of the inner un-escape for-loop of xbee_decode_frame: either the
loop ran to completion (done, with the state after any mid-loop drops, the
final idx, the checksum accumulator, and the output buffer) or the function
returned 0 from inside the loop (noFrame). -/
inductive InnerRes where
  | done (st : XbeeIf) (idx : Nat) (accum : Nat) (out : Nat → Nat)
  | noFrame (st : XbeeIf) (out : Nat → Nat)

/-- The inner for-loop of xbee_decode_frame (src/xbee.c:440-469), reading
length+1 un-escaped bytes into bytes_out and accumulating the checksum.
Note that every continue statement in the C loop body continues this inner
for loop (i advances, idx does not), not the outer while loop; the drops
performed before those continues are reflected in the carried state.
n counts the remaining iterations, i is the loop counter. -/
def innerLoop : Nat → XbeeIf → (Nat → Nat) → Nat → Nat → Nat → InnerRes
  | 0, st, out, idx, accum, _ => .done st idx accum out
  | n + 1, st, out, idx, accum, i =>
    match getNextByte st idx with
    | .ok b idx2 => innerLoop n st (updateFn out i b) idx2 ((accum + b) % 256) (i + 1)
    | .foundStart w => innerLoop n (dropByte st) (updateFn out i w) idx accum (i + 1)
    | .notEnough w =>
      let out2 := match w with | some v => updateFn out i v | none => out
      if st.recvSize = st.cap then innerLoop n (dropByte st) out2 idx accum (i + 1)
      else if findIfHaveNextDelim st then innerLoop n (dropByte st) out2 idx accum (i + 1)
      else .noFrame st out2

/-- The state update after a validated frame (src/xbee.c:471-481): advance
recv_idx by idx with one conditional wrap subtraction, and subtract idx from
recv_size in size_t arithmetic (no underflow guard in the C code). -/
def consumeFrame (st : XbeeIf) (idx : Nat) : XbeeIf :=
  { st with
    recvIdx := if st.cap ≤ st.recvIdx + idx then st.recvIdx + idx - st.cap
               else st.recvIdx + idx,
    recvSize := subSizeT st.recvSize idx }

/-- The outer while-loop of xbee_decode_frame (src/xbee.c:403-487).  Each
drop-and-continue of the outer loop consumes one unit of fuel; every such
path first drops a byte, so fuel recv_size + 1 never runs out.  Returns
(return value, final driver state, final output buffer). -/
def decodeLoop (fsize : Nat) : Nat → (Nat → Nat) → XbeeIf → Nat × XbeeIf × (Nat → Nat)
  | 0, out, st => (0, st, out)
  | fuel + 1, out, st =>
    if 6 ≤ st.recvSize then
      if getByteAt st 0 = 0x7E then
        match getNextByte st 1 with
        | .ok len1 idx1 =>
          match getNextByte st idx1 with
          | .ok len2 idx2 =>
            let length := len1 <<< 8 ||| len2
            if st.cap < length + 4 ∨ fsize < length + 1 then
              decodeLoop fsize fuel out (dropByte st)
            else
              match innerLoop (length + 1) st out idx2 0 0 with
              | .noFrame st2 out2 => (0, st2, out2)
              | .done st2 idx3 accum out2 =>
                if accum = 255 then (length, consumeFrame st2 idx3, out2)
                else decodeLoop fsize fuel out2 (dropByte st2)
          | _ => decodeLoop fsize fuel out (dropByte st)
        | _ => decodeLoop fsize fuel out (dropByte st)
      else decodeLoop fsize fuel out (dropByte st)
    else (0, st, out)

/-- xbee_decode_frame (src/xbee.c:386-490) on a driver state, an output
capacity frame_out_size and an output buffer frame_out. -/
def decodeFrame (st : XbeeIf) (fsize : Nat) (out : Nat → Nat) :
    Nat × XbeeIf × (Nat → Nat) :=
  decodeLoop fsize (st.recvSize + 1) out st

/-- A ring of capacity cap holding exactly the byte sequence bs starting at
head index 0: the state of a freshly opened driver (xbee_open zeroes
recv_idx and recv_size) whose ring has been filled with bs. -/
def loadRing (cap : Nat) (bs : List Nat) : XbeeIf :=
  { cap := cap, recvIdx := 0, recvSize := bs.length, mem := fun i => bs.getD i 0 }

/-- Result of the spec's step-5 un-escape: got is a completed read, restart
means drop one byte and restart the whole scan, needMore means return 0. -/
inductive InnerSpecRes where
  | got (idx : Nat) (accum : Nat) (out : Nat → Nat)
  | restart (out : Nat → Nat)
  | needMore (out : Nat → Nat)

/-- Modelled from the spec (section 4.5 step 5), for comparison with the
source's innerLoop: on "found start delimiter mid-frame" the scan is
abandoned (the outer loop drops one byte and restarts from step 1); on "not
enough data" with a full ring or a later delimiter, likewise; otherwise
return 0.  The un-escape itself is the source's getNextByte. -/
def innerLoopSpec : Nat → XbeeIf → (Nat → Nat) → Nat → Nat → Nat → InnerSpecRes
  | 0, _, out, idx, accum, _ => .got idx accum out
  | n + 1, st, out, idx, accum, i =>
    match getNextByte st idx with
    | .ok b idx2 => innerLoopSpec n st (updateFn out i b) idx2 ((accum + b) % 256) (i + 1)
    | .foundStart w => .restart (updateFn out i w)
    | .notEnough w =>
      let out2 := match w with | some v => updateFn out i v | none => out
      if st.recvSize = st.cap then .restart out2
      else if findIfHaveNextDelim st then .restart out2
      else .needMore out2

/-- Modelled from the spec (section 4.5): the scanner state machine with the
restart semantics of step 5, identical to decodeLoop everywhere else. -/
def decodeLoopSpec (fsize : Nat) : Nat → (Nat → Nat) → XbeeIf → Nat × XbeeIf × (Nat → Nat)
  | 0, out, st => (0, st, out)
  | fuel + 1, out, st =>
    if 6 ≤ st.recvSize then
      if getByteAt st 0 = 0x7E then
        match getNextByte st 1 with
        | .ok len1 idx1 =>
          match getNextByte st idx1 with
          | .ok len2 idx2 =>
            let length := len1 <<< 8 ||| len2
            if st.cap < length + 4 ∨ fsize < length + 1 then
              decodeLoopSpec fsize fuel out (dropByte st)
            else
              match innerLoopSpec (length + 1) st out idx2 0 0 with
              | .needMore out2 => (0, st, out2)
              | .restart out2 => decodeLoopSpec fsize fuel out2 (dropByte st)
              | .got idx3 accum out2 =>
                if accum = 255 then (length, consumeFrame st idx3, out2)
                else decodeLoopSpec fsize fuel out2 (dropByte st)
          | _ => decodeLoopSpec fsize fuel out (dropByte st)
        | _ => decodeLoopSpec fsize fuel out (dropByte st)
      else decodeLoopSpec fsize fuel out (dropByte st)
    else (0, st, out)

/-- Modelled from the spec: xbee_decode_frame as section 4.5 describes it,
with step-5 events restarting the whole scan after a single drop. -/
def decodeFrameSpec (st : XbeeIf) (fsize : Nat) (out : Nat → Nat) :
    Nat × XbeeIf × (Nat → Nat) :=
  decodeLoopSpec fsize (st.recvSize + 1) out st

/-- The xbee_parsed_frame_t contents (declared in the missing header
xbee.h, fields as used by src/xbee.c:804-932).  The C struct is zeroed with
memset before the dispatch, hence the zero defaults; the union members are
flattened into one record.  data pointers into the caller's buffer are
modelled as a start offset plus a size. -/
structure ParsedFrame where
  apiId : Nat := 0
  frameId : Nat := 0
  status : Nat := 0
  atCommand : List Nat := [0, 0, 0]
  respAddr : Nat := 0
  respNetAddr : Nat := 0
  rssi : Nat := 0
  options : Nat := 0
  dataStart : Nat := 0
  dataSize : Nat := 0
  deriving DecidableEq

/-- Return value of xbee_parse_frame: 0 with a filled frame, or one of the
two error codes XBEE_WRONG_LENGTH_FOR_API / XBEE_UNKNOWN_API_ID (numeric
values live in the missing header; modelled symbolically). -/
inductive ParseResult where
  | ok (f : ParsedFrame)
  | wrongLength
  | unknownApiId
  deriving DecidableEq

/-- The 64-bit address assembly loop of xbee_parse_frame
(src/xbee.c:870-873 and 898-901): addr |= b[base+i] << (64 - 8*(i-1)).
With i a size_t, i-1 underflows at i = 0, so the shift count is
72 - 8*i (72, 64, 56, ..., 16).  Shifting the int-promoted byte by 32 or
more is undefined behaviour in C; the result stored in the uint64 addr is
modelled as the full-width 64-bit shift truncated mod 2^64, under which the
first two bytes vanish and the rest land 16 bits too high. -/
def addr64buggy (b : Nat → Nat) (base : Nat) : Nat :=
  (List.range 8).foldl (fun acc i => acc ||| (b (base + i) <<< (72 - 8 * i)) % 2 ^ 64) 0

/-- xbee_parse_frame (src/xbee.c:804-932).  API ID values are modelled from
the spec (the numeric constants live in the missing header xbee.h; the spec
fixes XBEE_AT_RESPONSE = 0x88 via scenario S3, the others are the standard
XBee Series 1 response IDs: 0x8A modem status, 0x89 transmit status,
0x97 remote AT response, 0x80 receive, 0x81 receive 16-bit; only their
distinctness matters to the claims).  Note the exact length tests for
MODEM_STATUS and TRANSMIT_STATUS, the overwritten (not OR-ed) low byte of
the 16-bit receive network address, and the addr64buggy address fields. -/
def parseFrame (bs : List Nat) : ParseResult :=
  if bs.length < 2 then .wrongLength
  else if bs.getD 0 0 = 0x8A then
    if bs.length ≠ 2 then .wrongLength
    else .ok { apiId := 0x8A, status := bs.getD 1 0 }
  else if bs.getD 0 0 = 0x89 then
    if bs.length ≠ 3 then .wrongLength
    else .ok { apiId := 0x89, frameId := bs.getD 1 0, status := bs.getD 2 0 }
  else if bs.getD 0 0 = 0x88 then
    if bs.length < 5 then .wrongLength
    else .ok { apiId := 0x88, frameId := bs.getD 1 0,
               atCommand := [bs.getD 2 0, bs.getD 3 0, 0],
               status := bs.getD 4 0, dataStart := 5, dataSize := bs.length - 5 }
  else if bs.getD 0 0 = 0x97 then
    if bs.length < 15 then .wrongLength
    else .ok { apiId := 0x97, frameId := bs.getD 1 0,
               respAddr := addr64buggy (fun i => bs.getD i 0) 2,
               respNetAddr := bs.getD 10 0 <<< 8 ||| bs.getD 11 0,
               atCommand := [bs.getD 12 0, bs.getD 13 0, 0],
               status := bs.getD 14 0, dataStart := 15, dataSize := bs.length - 15 }
  else if bs.getD 0 0 = 0x80 then
    if bs.length < 11 then .wrongLength
    else .ok { apiId := 0x80,
               respAddr := addr64buggy (fun i => bs.getD i 0) 1,
               rssi := bs.getD 9 0, options := bs.getD 10 0,
               dataStart := 11, dataSize := bs.length - 11 }
  else if bs.getD 0 0 = 0x81 then
    if bs.length < 5 then .wrongLength
    else .ok { apiId := 0x81, respNetAddr := bs.getD 2 0,
               rssi := bs.getD 3 0, options := bs.getD 4 0,
               dataStart := 5, dataSize := bs.length - 5 }
  else .unknownApiId

/-- One outcome of a transport read: the int return value, and (when the
return value is positive) the bytes placed into the destination, as a
function of the offset within this read. -/
structure ReadEvent where
  ret : Int
  data : Nat → Nat

/-- Store n bytes from data into mem starting at physical index start. -/
def memWrite (mem : Nat → Nat) (start n : Nat) (data : Nat → Nat) : Nat → Nat :=
  fun j => if start ≤ j ∧ j < start + n then data (j - start) else mem j

/-- xbee_fill_buffer (src/xbee.c:507-571): compute the first contiguous
writable region, hand it to the transport read, and if that read filled the
region completely and the ring wraps and is not full, read once more into
the region starting at physical index 0.  The transport is a queue of read
outcomes; an empty queue behaves as a read returning 0.  Returns the int
result, the new state and the remaining transport queue.  Note that a
negative second read is discarded (the C code only adds ret when positive
and returns the accumulated count). -/
def fillBuffer (st : XbeeIf) (uart : List ReadEvent) :
    Int × XbeeIf × List ReadEvent :=
  let rs0 := st.recvIdx + st.recvSize
  let rs := if rs0 < st.cap then rs0 else rs0 - st.cap
  let re := if rs0 < st.cap then st.cap else st.recvIdx
  let rlen := re - rs
  match uart with
  | [] => (0, st, [])
  | ev :: rest =>
    let st1 := if 0 < ev.ret then
        { st with recvSize := st.recvSize + ev.ret.toNat,
                  mem := memWrite st.mem rs ev.ret.toNat ev.data }
      else st
    if ev.ret = (rlen : Int) ∧ re ≠ st.recvIdx ∧ st1.recvSize < st.cap then
      match rest with
      | [] => ((rlen : Int), st1, [])
      | ev2 :: rest2 =>
        let st2 := if 0 < ev2.ret then
            { st1 with recvSize := st1.recvSize + ev2.ret.toNat,
                       mem := memWrite st1.mem 0 ev2.ret.toNat ev2.data }
          else st1
        ((rlen : Int) + (if 0 < ev2.ret then ev2.ret else 0), st2, rest2)
    else (ev.ret, st1, rest)

/-- xbee_recv_frame (src/xbee.c:573-591): decode; if a frame was returned,
done; otherwise fill the buffer once, propagate a negative fill result, and
decode again.  Returns (int result, state, output buffer, remaining
transport queue). -/
def recvFrame (st : XbeeIf) (uart : List ReadEvent) (fsize : Nat)
    (out : Nat → Nat) : Int × XbeeIf × (Nat → Nat) × List ReadEvent :=
  let d1 := decodeFrame st fsize out
  if 0 < d1.1 then ((d1.1 : Int), d1.2.1, d1.2.2, uart)
  else
    let f := fillBuffer d1.2.1 uart
    if f.1 < 0 then (f.1, f.2.1, d1.2.2, f.2.2)
    else
      let d2 := decodeFrame f.2.1 fsize d1.2.2
      ((d2.1 : Int), d2.2.1, d2.2.2, f.2.2)

/-- Apply a list of stores to the output buffer at consecutive indices
starting at i: the cumulative effect of the inner loop's bytes_out writes. -/
def overwrite : (Nat → Nat) → Nat → List Nat → (Nat → Nat)
  | out, _, [] => out
  | out, i, b :: t => overwrite (updateFn out i b) (i + 1) t

/-- The output buffer carried by an inner-loop result. -/
def innerOut : InnerRes → (Nat → Nat)
  | .done _ _ _ o => o
  | .noFrame _ o => o

lemma getD_append_left {A B : List Nat} {k : Nat} (h : k < A.length) :
    (A ++ B).getD k 0 = A.getD k 0 := by
  simp [List.getD, List.getElem?_append, h]

lemma getD_append_right (A B : List Nat) (k : Nat) :
    (A ++ B).getD (A.length + k) 0 = B.getD k 0 := by
  simp [List.getD, List.getElem?_append]

lemma getD_drop (l : List Nat) (m k : Nat) : (l.drop m).getD k 0 = l.getD (m + k) 0 := by
  simp [List.getD, List.getElem?_drop]

lemma drop_eq_getD_cons {l : List Nat} {n : Nat} (h : n < l.length) :
    l.drop n = l.getD n 0 :: l.drop (n + 1) := by
  rw [List.drop_eq_getElem_cons h]
  simp [List.getD, List.getElem?_eq_getElem h]

lemma take_succ_getD {l : List Nat} {n : Nat} (h : n < l.length) :
    l.take (n + 1) = l.take n ++ [l.getD n 0] := by
  rw [List.take_succ]
  simp [List.getD, List.getElem?_eq_getElem h]

lemma escByte_length_pos (b : Nat) : 1 ≤ (escByte b).length := by
  unfold escByte
  split <;> simp

lemma length_le_length_flatMap (bs : List Nat) :
    bs.length ≤ (bs.flatMap escByte).length := by
  induction bs with
  | nil => simp
  | cons b t ih =>
    have := escByte_length_pos b
    simp only [List.flatMap_cons, List.length_cons, List.length_append]
    omega

/-- The chunked write loop of xbee_write_bytes emits, byte for byte, the
escape image of its input. -/
lemma writeBytesGo_eq (bs : List Nat) : ∀ n i off, i + n = bs.length → off ≤ i →
    (∀ k, off ≤ k → k < i → needEscape (bs.getD k 0) = false) →
    writeBytesGo bs n i off =
      (bs.drop off).take (i - off) ++ (bs.drop i).flatMap escByte := by
  intro n
  induction n with
  | zero =>
    intro i off hlen hoff _
    have hi : i = bs.length := by omega
    subst hi
    simp only [writeBytesGo, List.drop_length, List.flatMap_nil, List.append_nil]
    rw [show bs.length - off = (bs.drop off).length by simp, List.take_length]
  | succ n ih =>
    intro i off hlen hoff hchunk
    have hi : i < bs.length := by omega
    cases h : needEscape (bs.getD i 0) with
    | true =>
      simp only [writeBytesGo, h, if_true]
      rw [ih (i + 1) (i + 1) (by omega) (by omega) (by omega)]
      rw [drop_eq_getD_cons hi, List.flatMap_cons,
          show escByte (bs.getD i 0) = [0x7D, bs.getD i 0 ^^^ 0x20] from by
            unfold escByte
            rw [h]
            simp]
      simp
    | false =>
      simp only [writeBytesGo, h, if_false]
      rw [ih (i + 1) off (by omega) (by omega)
        (by intro k hk1 hk2
            rcases Nat.lt_or_ge k i with hk | hk
            · exact hchunk k hk1 hk
            · have hki : k = i := by omega
              rw [hki]
              exact h)]
      rw [show i + 1 - off = (i - off) + 1 by omega,
          take_succ_getD (by simp; omega), getD_drop,
          show off + (i - off) = i by omega]
      rw [drop_eq_getD_cons hi, List.flatMap_cons,
          show escByte (bs.getD i 0) = [bs.getD i 0] from by
            unfold escByte
            rw [h]
            simp]
      simp

/-- xbee_write_bytes puts on the wire exactly the concatenation of the
per-byte escape images. -/
lemma writeBytesOut_eq (bs : List Nat) : writeBytesOut bs = bs.flatMap escByte := by
  unfold writeBytesOut
  rw [writeBytesGo_eq bs bs.length 0 0 (by omega) (by omega) (by omega)]
  simp

lemma writeBytesOut_append (A B : List Nat) :
    writeBytesOut (A ++ B) = writeBytesOut A ++ writeBytesOut B := by
  simp [writeBytesOut_eq, List.flatMap_append]

/-- The accumulator update of xbee_write_bytes is addition mod 256. -/
lemma sumAccum_eq (bs : List Nat) : ∀ a, a < 256 → sumAccum a bs = (a + bs.sum) % 256 := by
  induction bs with
  | nil => intro a ha; simpa [sumAccum] using (Nat.mod_eq_of_lt ha).symm
  | cons b t ih =>
    intro a ha
    have h1 : sumAccum a (b :: t) = sumAccum ((a + b) % 256) t := rfl
    rw [h1, ih _ (Nat.mod_lt _ (by omega))]
    simp only [List.sum_cons]
    omega

/-- Big-endian length split and recombination: the scanner's
len1 << 8 | len2 on the emitter's two length bytes gives back the length. -/
lemma shiftLor_roundtrip (L : Nat) : ((L >>> 8) <<< 8) ||| (L % 256) = L := by
  apply Nat.eq_of_testBit_eq
  intro i
  simp only [Nat.testBit_or, Nat.testBit_shiftLeft, Nat.testBit_shiftRight]
  rw [show (256 : Nat) = 2 ^ 8 from rfl, Nat.testBit_mod_two_pow]
  by_cases h : 8 ≤ i
  · have h2 : ¬ i < 8 := by omega
    have h3 : 8 + (i - 8) = i := by omega
    simp [h, h2, h3]
  · have h2 : i < 8 := by omega
    simp [h, h2]

lemma needEscape_cases {b : Nat} (h : needEscape b = true) :
    b = 0x7E ∨ b = 0x7D ∨ b = 0x11 ∨ b = 0x13 := by
  simp [needEscape] at h
  tauto

lemma needEscape_ne {b : Nat} (h : needEscape b = false) :
    b ≠ 0x7E ∧ b ≠ 0x7D := by
  simp [needEscape] at h
  exact ⟨h.1.1.1, h.1.1.2⟩

/-- Reading the escape image of one byte through xbee_get_next_byte yields
the byte back and advances idx past its image. -/
lemma getNextByte_esc (st : XbeeIf) (j b : Nat) (hb : b < 256)
    (hfits : j + (escByte b).length ≤ st.recvSize)
    (hcont : ∀ k, k < (escByte b).length →
      getByteAt st (j + k) = (escByte b).getD k 0) :
    getNextByte st j = .ok b (j + (escByte b).length) := by
  cases h : needEscape b with
  | true =>
    have he : escByte b = [0x7D, b ^^^ 0x20] := by
      unfold escByte
      rw [h]
      simp
    rw [he] at hfits hcont ⊢
    simp only [List.length_cons, List.length_singleton] at hfits hcont ⊢
    have h0 : getByteAt st j = 0x7D := by
      have h' := hcont 0 (by omega)
      simpa using h'
    have h1 : getByteAt st (j + 1) = b ^^^ 0x20 := by
      have h' := hcont 1 (by omega)
      simpa using h'
    have hne : b ^^^ 0x20 ≠ 0x7E := by
      rcases needEscape_cases h with rfl | rfl | rfl | rfl <;> decide
    unfold getNextByte
    rw [if_neg (by omega), h0, if_neg (by decide), if_pos rfl,
        if_neg (by omega), h1, if_neg hne, Nat.xor_cancel_right]
    simp
  | false =>
    have he : escByte b = [b] := by
      unfold escByte
      rw [h]
      simp
    rw [he] at hfits hcont ⊢
    simp only [List.length_singleton] at hfits hcont ⊢
    have h0 : getByteAt st j = b := by
      have h' := hcont 0 (by omega)
      simpa using h'
    have hne := needEscape_ne h
    unfold getNextByte
    rw [if_neg (by omega), h0, if_neg hne.1, if_neg hne.2]

/-- When the ring holds the escape image of bs starting at offset idx, the
inner un-escape loop of xbee_decode_frame completes without touching the
ring state, returns idx advanced past the image, accumulates the byte sum
mod 256, and stores bs at consecutive output indices from i. -/
lemma innerLoop_reads (bs : List Nat) : ∀ (st : XbeeIf) (out : Nat → Nat)
    (idx accum i : Nat), (∀ b ∈ bs, b < 256) →
    idx + (bs.flatMap escByte).length ≤ st.recvSize →
    (∀ k, k < (bs.flatMap escByte).length →
      getByteAt st (idx + k) = (bs.flatMap escByte).getD k 0) →
    innerLoop bs.length st out idx accum i =
      .done st (idx + (bs.flatMap escByte).length) (sumAccum accum bs)
        (overwrite out i bs) := by
  induction bs with
  | nil =>
    intro st out idx accum i _ _ _
    simp [innerLoop, sumAccum, overwrite]
  | cons b t ih =>
    intro st out idx accum i hmem hfits hcont
    simp only [List.flatMap_cons, List.length_append] at hfits hcont ⊢
    have hb : b < 256 := hmem b (by simp)
    have hread : getNextByte st idx = .ok b (idx + (escByte b).length) := by
      refine getNextByte_esc st idx b hb (by omega) ?_
      intro k hk
      have h' := hcont k (by omega)
      rwa [getD_append_left hk] at h'
    have hstep : innerLoop (b :: t).length st out idx accum i =
        innerLoop t.length st (updateFn out i b) (idx + (escByte b).length)
          ((accum + b) % 256) (i + 1) := by
      simp only [List.length_cons, innerLoop, hread]
    rw [hstep, ih st (updateFn out i b) (idx + (escByte b).length)
      ((accum + b) % 256) (i + 1) (fun x hx => hmem x (by simp [hx]))
      (by omega)
      (by intro k hk
          have h' := hcont ((escByte b).length + k) (by omega)
          rw [getD_append_right] at h'
          rwa [show idx + ((escByte b).length + k) = idx + (escByte b).length + k
            by omega] at h')]
    rw [Nat.add_assoc]
    rfl

/-- Value of the output buffer after the inner loop's consecutive stores. -/
lemma overwrite_apply (bs : List Nat) : ∀ (out : Nat → Nat) (i j : Nat),
    overwrite out i bs j =
      if i ≤ j ∧ j < i + bs.length then bs.getD (j - i) 0 else out j := by
  induction bs with
  | nil =>
    intro out i j
    rw [overwrite, if_neg (by simp)]
  | cons b t ih =>
    intro out i j
    simp only [List.length_cons]
    rw [show overwrite out i (b :: t) = overwrite (updateFn out i b) (i + 1) t
      from rfl, ih]
    by_cases h1 : i + 1 ≤ j ∧ j < i + 1 + t.length
    · rw [if_pos h1, if_pos (by omega)]
      rw [show j - i = (j - (i + 1)) + 1 by omega]
      rfl
    · rw [if_neg h1]
      unfold updateFn
      by_cases h2 : j = i
      · rw [if_pos h2, if_pos (by omega)]
        subst h2
        simp
      · rw [if_neg h2, if_neg (by omega)]

/-- One pass of the outer decode loop in which the delimiter check, both
length reads, the feasibility checks, the inner loop and the checksum test
all succeed: the loop returns the length and consumes the frame. -/
lemma decodeLoop_success (fsize fuel : Nat) (out : Nat → Nat) (st : XbeeIf)
    (len1 len2 idx1 idx2 idx3 accum L : Nat) (out2 : Nat → Nat) (st2 : XbeeIf)
    (h6 : 6 ≤ st.recvSize)
    (hb0 : getByteAt st 0 = 0x7E)
    (h1 : getNextByte st 1 = .ok len1 idx1)
    (h2 : getNextByte st idx1 = .ok len2 idx2)
    (hL : len1 <<< 8 ||| len2 = L)
    (hfeas : ¬ (st.cap < L + 4 ∨ fsize < L + 1))
    (hinner : innerLoop (L + 1) st out idx2 0 0 = .done st2 idx3 accum out2)
    (hacc : accum = 255) :
    decodeLoop fsize (fuel + 1) out st = (L, consumeFrame st2 idx3, out2) := by
  simp only [decodeLoop, if_pos h6, hb0, if_pos rfl, h1, h2, hL, if_neg hfeas,
    hinner]
  subst hacc
  simp

/-- C1, amended: round-trip through xbee_send_frame and xbee_decode_frame
for payloads of 2 to 65535 bytes whose emitted frame fits the ring. -/
theorem c1_round_trip (P : List Nat) (cap outCap : Nat) (out : Nat → Nat)
    (hlen : 2 ≤ P.length) (hmax : P.length ≤ 65535)
    (hbytes : ∀ b ∈ P, b < 256)
    (hcap : (sendFrameBytes P).length ≤ cap)
    (hout : P.length + 1 ≤ outCap) :
    (decodeFrame (loadRing cap (sendFrameBytes P)) outCap out).1 = P.length ∧
    ∀ j, j < P.length →
      (decodeFrame (loadRing cap (sendFrameBytes P)) outCap out).2.2 j =
        P.getD j 0 := by
  have hs256 : sumAccum 0 P < 256 := by
    rw [sumAccum_eq P 0 (by omega)]
    omega
  have hE : sendFrameBytes P = 0x7E ::
      (([P.length >>> 8, P.length % 256] ++
        (P ++ [255 - sumAccum 0 P])).flatMap escByte) := by
    unfold sendFrameBytes startFrameBytes finishFrameBytes
    rw [writeBytesOut_eq, writeBytesOut_eq, writeBytesOut_eq,
        Nat.mod_eq_of_lt (show P.length < 65536 by omega),
        Nat.mod_eq_of_lt hs256]
    simp [List.flatMap_append]
  have hflen := length_le_length_flatMap
    ([P.length >>> 8, P.length % 256] ++ (P ++ [255 - sumAccum 0 P]))
  have hALLlen : ([P.length >>> 8, P.length % 256] ++
      (P ++ [255 - sumAccum 0 P])).length = P.length + 3 := by
    simp
  have hElen : (sendFrameBytes P).length = 1 +
      (([P.length >>> 8, P.length % 256] ++
        (P ++ [255 - sumAccum 0 P])).flatMap escByte).length := by
    rw [hE]
    simp only [List.length_cons]
    omega
  have hget : ∀ j, j < (sendFrameBytes P).length →
      getByteAt (loadRing cap (sendFrameBytes P)) j = (sendFrameBytes P).getD j 0 := by
    intro j hj
    unfold getByteAt loadRing
    simp only
    rw [if_neg (by simp; omega)]
    simp
  have hcont : ∀ k, k < (([P.length >>> 8, P.length % 256] ++
        (P ++ [255 - sumAccum 0 P])).flatMap escByte).length →
      getByteAt (loadRing cap (sendFrameBytes P)) (1 + k) =
        (([P.length >>> 8, P.length % 256] ++
          (P ++ [255 - sumAccum 0 P])).flatMap escByte).getD k 0 := by
    intro k hk
    rw [hget (1 + k) (by omega), hE, Nat.add_comm 1 k]
    rfl
  have hsplit : ([P.length >>> 8, P.length % 256] ++
        (P ++ [255 - sumAccum 0 P])).flatMap escByte =
      escByte (P.length >>> 8) ++ (escByte (P.length % 256) ++
        (P ++ [255 - sumAccum 0 P]).flatMap escByte) := by
    simp [List.flatMap_append]
  have hsize : (loadRing cap (sendFrameBytes P)).recvSize = (sendFrameBytes P).length := rfl
  have hsz : (loadRing cap (sendFrameBytes P)).recvSize =
      1 + ((escByte (P.length >>> 8)).length + ((escByte (P.length % 256)).length +
        ((P ++ [255 - sumAccum 0 P]).flatMap escByte).length)) := by
    rw [hsize, hElen, hsplit]
    simp only [List.length_append]
  have hscap : (loadRing cap (sendFrameBytes P)).cap = cap := rfl
  have hhi : P.length >>> 8 < 256 := by
    rw [Nat.shiftRight_eq_div_pow]
    omega
  have hlo : P.length % 256 < 256 := by omega
  have hr1 : getNextByte (loadRing cap (sendFrameBytes P)) 1 =
      .ok (P.length >>> 8) (1 + (escByte (P.length >>> 8)).length) := by
    refine getNextByte_esc _ 1 _ hhi ?_ ?_
    · rw [hsz]
      omega
    · intro k hk
      rw [hcont k (by rw [hsplit]; simp only [List.length_append]; omega),
          hsplit, getD_append_left hk]
  have hr2 : getNextByte (loadRing cap (sendFrameBytes P))
        (1 + (escByte (P.length >>> 8)).length) =
      .ok (P.length % 256)
        (1 + (escByte (P.length >>> 8)).length + (escByte (P.length % 256)).length) := by
    refine getNextByte_esc _ _ _ hlo ?_ ?_
    · rw [hsz]
      omega
    · intro k hk
      have h' := hcont ((escByte (P.length >>> 8)).length + k)
        (by rw [hsplit]; simp only [List.length_append]; omega)
      rw [hsplit, getD_append_right, getD_append_left hk] at h'
      rwa [show 1 + ((escByte (P.length >>> 8)).length + k) =
        1 + (escByte (P.length >>> 8)).length + k by omega] at h'
  have hckbytes : ∀ b ∈ P ++ [255 - sumAccum 0 P], b < 256 := by
    intro b hb
    rcases List.mem_append.mp hb with h | h
    · exact hbytes b h
    · simp at h
      omega
  have hinner : innerLoop (P.length + 1) (loadRing cap (sendFrameBytes P)) out
        (1 + (escByte (P.length >>> 8)).length + (escByte (P.length % 256)).length) 0 0 =
      .done (loadRing cap (sendFrameBytes P))
        (1 + (escByte (P.length >>> 8)).length + (escByte (P.length % 256)).length +
          ((P ++ [255 - sumAccum 0 P]).flatMap escByte).length)
        (sumAccum 0 (P ++ [255 - sumAccum 0 P]))
        (overwrite out 0 (P ++ [255 - sumAccum 0 P])) := by
    rw [show P.length + 1 = (P ++ [255 - sumAccum 0 P]).length by simp]
    refine innerLoop_reads _ _ _ _ _ _ hckbytes ?_ ?_
    · rw [hsz]
      omega
    · intro k hk
      have h' := hcont ((escByte (P.length >>> 8)).length +
          ((escByte (P.length % 256)).length + k))
        (by rw [hsplit]; simp only [List.length_append]; omega)
      rw [hsplit, getD_append_right, getD_append_right] at h'
      rwa [show 1 + ((escByte (P.length >>> 8)).length +
        ((escByte (P.length % 256)).length + k)) =
        1 + (escByte (P.length >>> 8)).length + (escByte (P.length % 256)).length + k
        by omega] at h'
  have haccum : sumAccum 0 (P ++ [255 - sumAccum 0 P]) = 255 := by
    rw [sumAccum_eq _ 0 (by omega), List.sum_append,
        sumAccum_eq P 0 (by omega)]
    simp
    omega
  have hstep : decodeFrame (loadRing cap (sendFrameBytes P)) outCap out =
      ((P.length : Nat), consumeFrame (loadRing cap (sendFrameBytes P))
        (1 + (escByte (P.length >>> 8)).length + (escByte (P.length % 256)).length +
          ((P ++ [255 - sumAccum 0 P]).flatMap escByte).length),
        overwrite out 0 (P ++ [255 - sumAccum 0 P])) := by
    unfold decodeFrame
    refine decodeLoop_success outCap _ out _ _ _ _ _ _ _ _ _ _
      (by rw [hsz]; omega)
      (by rw [hget 0 (by omega), hE]; rfl)
      hr1 hr2 (shiftLor_roundtrip P.length) ?_ hinner haccum
    rw [hscap]
    push_neg
    constructor
    · have : (sendFrameBytes P).length ≥ P.length + 4 := by
        rw [hElen]
        omega
      omega
    · omega
  constructor
  · rw [hstep]
  · intro j hj
    rw [hstep]
    simp only
    rw [overwrite_apply]
    rw [if_pos (by simp; omega)]
    simp only [Nat.sub_zero]
    rw [getD_append_left hj]

lemma innerLoop_out_frame (n : Nat) : ∀ (st : XbeeIf) (out : Nat → Nat)
    (idx accum i j : Nat), (j < i ∨ i + n ≤ j) →
    innerOut (innerLoop n st out idx accum i) j = out j := by
  induction n with
  | zero =>
    intro st out idx accum i j _
    rfl
  | succ n ih =>
    intro st out idx accum i j hj
    have hne : j ≠ i := by omega
    have hj2 : j < i + 1 ∨ (i + 1) + n ≤ j := by omega
    cases hgn : getNextByte st idx with
    | ok b idx2 =>
      simp only [innerLoop, hgn]
      rw [ih _ _ _ _ _ _ hj2]
      simp [updateFn, hne]
    | foundStart w =>
      simp only [innerLoop, hgn]
      rw [ih _ _ _ _ _ _ hj2]
      simp [updateFn, hne]
    | notEnough w =>
      simp only [innerLoop, hgn]
      by_cases h1 : st.recvSize = st.cap
      · simp only [if_pos h1]
        rw [ih _ _ _ _ _ _ hj2]
        cases w <;> simp [updateFn, hne]
      · simp only [if_neg h1]
        by_cases h2 : findIfHaveNextDelim st = true
        · simp only [if_pos h2]
          rw [ih _ _ _ _ _ _ hj2]
          cases w <;> simp [updateFn, hne]
        · simp only [if_neg h2]
          cases w <;> simp [innerOut, updateFn, hne]

lemma decodeLoop_out_bound (fsize : Nat) : ∀ (fuel : Nat) (st : XbeeIf)
    (out : Nat → Nat) (j : Nat), fsize ≤ j →
    (decodeLoop fsize fuel out st).2.2 j = out j := by
  intro fuel
  induction fuel with
  | zero =>
    intro st out j _
    rfl
  | succ fuel ih =>
    intro st out j hj
    by_cases h6 : 6 ≤ st.recvSize
    · by_cases hb : getByteAt st 0 = 0x7E
      · cases hg1 : getNextByte st 1 with
        | ok len1 idx1 =>
          cases hg2 : getNextByte st idx1 with
          | ok len2 idx2 =>
            by_cases hfe : st.cap < (len1 <<< 8 ||| len2) + 4 ∨
                fsize < (len1 <<< 8 ||| len2) + 1
            · simp only [decodeLoop, if_pos h6, if_pos hb, hg1, hg2, if_pos hfe]
              exact ih _ _ _ hj
            · have hfs : (len1 <<< 8 ||| len2) + 1 ≤ fsize := by
                push_neg at hfe
                omega
              have hwr := innerLoop_out_frame ((len1 <<< 8 ||| len2) + 1) st out
                idx2 0 0 j (Or.inr (by omega))
              cases hin : innerLoop ((len1 <<< 8 ||| len2) + 1) st out idx2 0 0 with
              | noFrame st2 out2 =>
                rw [hin] at hwr
                simp only [decodeLoop, if_pos h6, if_pos hb, hg1, hg2,
                  if_neg hfe, hin]
                simpa [innerOut] using hwr
              | done st2 idx3 accum out2 =>
                rw [hin] at hwr
                simp only [innerOut] at hwr
                by_cases hac : accum = 255
                · simp only [decodeLoop, if_pos h6, if_pos hb, hg1, hg2,
                    if_neg hfe, hin, if_pos hac]
                  exact hwr
                · simp only [decodeLoop, if_pos h6, if_pos hb, hg1, hg2,
                    if_neg hfe, hin, if_neg hac]
                  rw [ih _ _ _ hj]
                  exact hwr
          | foundStart w =>
            simp only [decodeLoop, if_pos h6, if_pos hb, hg1, hg2]
            exact ih _ _ _ hj
          | notEnough w =>
            simp only [decodeLoop, if_pos h6, if_pos hb, hg1, hg2]
            exact ih _ _ _ hj
        | foundStart w =>
          simp only [decodeLoop, if_pos h6, if_pos hb, hg1]
          exact ih _ _ _ hj
        | notEnough w =>
          simp only [decodeLoop, if_pos h6, if_pos hb, hg1]
          exact ih _ _ _ hj
      · simp only [decodeLoop, if_pos h6, if_neg hb]
        exact ih _ _ _ hj
    · simp only [decodeLoop, if_neg h6]

/-- C10 (confirmed): xbee_decode_frame never stores at or beyond offset
frame_out_size of the caller's output buffer: the inner loop writes only at
indices below length + 1, and length + 1 <= frame_out_size is checked before
the loop is entered. -/
theorem c10_out_write_bound (st : XbeeIf) (fsize : Nat) (out : Nat → Nat)
    (j : Nat) (hj : fsize ≤ j) :
    (decodeFrame st fsize out).2.2 j = out j := by
  unfold decodeFrame
  exact decodeLoop_out_bound fsize _ st out j hj

/-- Witness for c10_out_write_bound at a concrete state and index. -/
theorem c10_out_write_bound_witness :
    (decodeFrame (loadRing 4 []) 2 (fun k => k + 7)).2.2 5 = 12 :=
  c10_out_write_bound (loadRing 4 []) 2 (fun k => k + 7) 5 (by decide)

/-- C1 counterexample: the one-byte payload 0x01 satisfies every premise of
the claim (1 <= |P|, |P| + 4 <= capacity 5, |P| + 1 <= output capacity 2,
and its emitted frame, 7E 00 01 01 FE, loads into the ring), yet
xbee_decode_frame returns 0, not |P| = 1: the 5-byte frame is below the
scanner's 6-byte minimum. -/
theorem c1_counterexample :
    1 ≤ ([1] : List Nat).length ∧ ([1] : List Nat).length + 4 ≤ 5 ∧
    ([1] : List Nat).length + 1 ≤ 2 ∧ (sendFrameBytes [1]).length ≤ 5 ∧
    (decodeFrame (loadRing 5 (sendFrameBytes [1])) 2 (fun _ => 0)).1 = 0 := by
  decide

/-- Witness for c1_round_trip on the payload 01 02 in a 6-byte ring. -/
theorem c1_round_trip_witness :
    (decodeFrame (loadRing 6 (sendFrameBytes [1, 2])) 3 (fun _ => 0)).1 = 2 ∧
    (decodeFrame (loadRing 6 (sendFrameBytes [1, 2])) 3 (fun _ => 0)).2.2 0 = 1 ∧
    (decodeFrame (loadRing 6 (sendFrameBytes [1, 2])) 3 (fun _ => 0)).2.2 1 = 2 := by
  have h := c1_round_trip [1, 2] 6 3 (fun _ => 0) (by decide) (by decide)
    (by decide) (by decide) (by decide)
  refine ⟨h.1, ?_, ?_⟩
  · rw [h.2 0 (by decide)]
    rfl
  · rw [h.2 1 (by decide)]
    rfl

/-- C2 (code_bug): on ring contents 7E 00 02 01 7E FE (capacity 6, output
capacity 3) the un-escape of the payload hits the stray 0x7E; the C code's
continue statement resumes the inner for-loop after the drop instead of
restarting the scan, so it returns 2 and consumes the whole buffer, whereas
the spec's restart semantics returns 0 and keeps 00 02 01 7E FE buffered. -/
theorem c2_inner_continue_divergence :
    (decodeFrame (loadRing 6 [0x7E, 0x00, 0x02, 0x01, 0x7E, 0xFE]) 3 (fun _ => 0)).1 = 2 ∧
    (decodeFrame (loadRing 6 [0x7E, 0x00, 0x02, 0x01, 0x7E, 0xFE]) 3 (fun _ => 0)).2.1.recvSize = 0 ∧
    (decodeFrameSpec (loadRing 6 [0x7E, 0x00, 0x02, 0x01, 0x7E, 0xFE]) 3 (fun _ => 0)).1 = 0 ∧
    (decodeFrameSpec (loadRing 6 [0x7E, 0x00, 0x02, 0x01, 0x7E, 0xFE]) 3 (fun _ => 0)).2.1.recvSize = 5 := by
  decide

/-- C9 (code_bug): on the full ring 7E 00 02 01 7D DE (capacity 6, output
capacity 3) the inner loop reads the escaped byte pair, runs out of data
with the ring full, drops one byte mid-loop, and still validates the
checksum; the final recv_size -= idx computes 5 - 6 in size_t, leaving
recv_size = 2^64 - 1 > capacity and violating the invariant asserted by
xbee_check. -/
theorem c9_size_underflow :
    (loadRing 6 [0x7E, 0x00, 0x02, 0x01, 0x7D, 0xDE]).recvSize ≤
      (loadRing 6 [0x7E, 0x00, 0x02, 0x01, 0x7D, 0xDE]).cap ∧
    (decodeFrame (loadRing 6 [0x7E, 0x00, 0x02, 0x01, 0x7D, 0xDE]) 3 (fun _ => 0)).1 = 2 ∧
    (decodeFrame (loadRing 6 [0x7E, 0x00, 0x02, 0x01, 0x7D, 0xDE]) 3 (fun _ => 0)).2.1.recvSize = 2 ^ 64 - 1 ∧
    ¬ (decodeFrame (loadRing 6 [0x7E, 0x00, 0x02, 0x01, 0x7D, 0xDE]) 3 (fun _ => 0)).2.1.recvSize ≤
      (decodeFrame (loadRing 6 [0x7E, 0x00, 0x02, 0x01, 0x7D, 0xDE]) 3 (fun _ => 0)).2.1.cap := by
  decide

/-- C3 (code_bug): evaluation of xbee_parse_frame at a 16-bit receive
payload 81 12 34 28 00: the parsed source network address is 0x34 (the
second assignment overwrites the high byte), not (b1 << 8) | b2 = 0x1234;
and at a 64-bit receive payload 80 01 02 03 04 05 06 07 08 28 00 the parsed
address is 0x0304050607080000 (shift counts 72 - 8*i), not the big-endian
0x0102030405060708. -/
theorem c3_parse_endianness :
    parseFrame [0x81, 0x12, 0x34, 0x28, 0x00] =
      .ok { apiId := 0x81, respNetAddr := 0x34, rssi := 0x28, options := 0,
            dataStart := 5, dataSize := 0 } ∧
    (0x12 : Nat) <<< 8 ||| 0x34 = 0x1234 ∧ (0x34 : Nat) ≠ 0x1234 ∧
    parseFrame [0x80, 0x01, 0x02, 0x03, 0x04, 0x05, 0x06, 0x07, 0x08, 0x28, 0x00] =
      .ok { apiId := 0x80, respAddr := 0x0304050607080000, rssi := 0x28,
            options := 0, dataStart := 11, dataSize := 0 } ∧
    (0x0304050607080000 : Nat) ≠ 0x0102030405060708 := by
  decide

/-- C4 counterexample: a MODEM_STATUS payload of length 3 meets the claimed
minimum length 2 but xbee_parse_frame rejects it with the wrong-length
error (the code tests frame_size != 2, an exact length). -/
theorem c4_counterexample :
    2 ≤ ([0x8A, 0x00, 0x00] : List Nat).length ∧
    parseFrame [0x8A, 0x00, 0x00] = ParseResult.wrongLength := by
  decide

/-- C4, amended: xbee_parse_frame returns the wrong-length error exactly
when the payload is shorter than 2 bytes, or has exact-length mismatch for
MODEM_STATUS (2) or TRANSMIT_STATUS (3), or is below the minimum for
AT_RESPONSE (5), REMOTE_AT_RESPONSE (15), RECEIVE (11) or RECEIVE_16_BIT
(5); it parses successfully otherwise for known API IDs, and returns the
unknown-API-ID error for an unknown first byte with length at least 2. -/
theorem c4_length_discipline (bs : List Nat) :
    (parseFrame bs = .wrongLength ↔ bs.length < 2 ∨
      (bs.getD 0 0 = 0x8A ∧ bs.length ≠ 2) ∨ (bs.getD 0 0 = 0x89 ∧ bs.length ≠ 3) ∨
      (bs.getD 0 0 = 0x88 ∧ bs.length < 5) ∨ (bs.getD 0 0 = 0x97 ∧ bs.length < 15) ∨
      (bs.getD 0 0 = 0x80 ∧ bs.length < 11) ∨ (bs.getD 0 0 = 0x81 ∧ bs.length < 5)) ∧
    (parseFrame bs = .unknownApiId ↔ 2 ≤ bs.length ∧
      bs.getD 0 0 ≠ 0x8A ∧ bs.getD 0 0 ≠ 0x89 ∧ bs.getD 0 0 ≠ 0x88 ∧
      bs.getD 0 0 ≠ 0x97 ∧ bs.getD 0 0 ≠ 0x80 ∧ bs.getD 0 0 ≠ 0x81) ∧
    ((∃ f, parseFrame bs = .ok f) ↔ 2 ≤ bs.length ∧
      ((bs.getD 0 0 = 0x8A ∧ bs.length = 2) ∨ (bs.getD 0 0 = 0x89 ∧ bs.length = 3) ∨
       (bs.getD 0 0 = 0x88 ∧ 5 ≤ bs.length) ∨ (bs.getD 0 0 = 0x97 ∧ 15 ≤ bs.length) ∨
       (bs.getD 0 0 = 0x80 ∧ 11 ≤ bs.length) ∨ (bs.getD 0 0 = 0x81 ∧ 5 ≤ bs.length))) := by
  unfold parseFrame
  split_ifs <;> refine ⟨?_, ?_, ?_⟩ <;>
    first
      | exact iff_of_true rfl (by omega)
      | exact iff_of_true ⟨_, rfl⟩ (by omega)
      | exact iff_of_false (fun h => h) (by omega)
      | exact iff_of_false (by rintro ⟨f, h⟩; exact h) (by omega)

/-- C5 (code_bug): in the 16-bit unicast branch of xbee_remote_at_command
the eight addr64 header bytes are whatever was on the stack (here the junk
value 0xAA repeated), not 00 00 00 00 00 00 FF FE; the addr16 bytes do get
the big-endian network address, and the 64-bit broadcast half of the claim
does hold (addr64 = 00 00 00 00 00 00 FF FF, addr16 = FF FE). -/
theorem c5_remote_at_addressing :
    (((remoteAtHeader (fun _ => 0xAA) (XbeeAddress.addr16 0x1234) 0x52 0x00
        0x4E 0x4A).drop 2).take 8 = List.replicate 8 0xAA ∧
      List.replicate 8 0xAA ≠ [0x00, 0x00, 0x00, 0x00, 0x00, 0x00, 0xFF, 0xFE]) ∧
    ((remoteAtHeader (fun _ => 0xAA) (XbeeAddress.addr16 0x1234) 0x52 0x00
        0x4E 0x4A).drop 10).take 2 = [0x12, 0x34] ∧
    ∀ (junk : Nat → Nat) (fid opts c0 c1 : Nat),
      ((remoteAtHeader junk XbeeAddress.broadcast64 fid opts c0 c1).drop 2).take 10 =
        [0x00, 0x00, 0x00, 0x00, 0x00, 0x00, 0xFF, 0xFF, 0xFF, 0xFE] := by
  refine ⟨⟨by decide, by decide⟩, by decide, ?_⟩
  intro junk fid opts c0 c1
  rfl

/-- C6 counterexample: the S1 frame's final byte is 0x0D, not 0x09
(0xFF - (0x08 + 0x52 + 0x4E + 0x4A) = 0xFF - 0xF2 = 0x0D); moreover, when
the checksum byte itself lies in the escape set, the final emitted byte is
its escaped image, not the checksum value (at_command 0x4E \x4E \x4A has
checksum 0x11, emitted as 7D 31, so the last byte on the wire is 0x31). -/
theorem c6_counterexample :
    atCommandBytes 0x52 0x4E 0x4A [] ≠
      [0x7E, 0x00, 0x04, 0x08, 0x52, 0x4E, 0x4A, 0x09] ∧
    (atCommandBytes 0x4E 0x4E 0x4A []).getLast? = some 0x31 ∧
    (0x31 : Nat) ≠ 255 - ([0x08, 0x4E, 0x4E, 0x4A] : List Nat).sum % 256 := by
  decide

/-- C6, amended: at_command(frame_id 0x52, NJ, empty) emits exactly
7E 00 04 08 52 4E 4A 0D, and in general the frame is the start-of-frame
bytes (delimiter and length, which never feed the accumulator), the payload
through the escape codec, and the byte 0xFF minus the mod-256 sum of the
unescaped payload written through the escape codec (so the checksum byte
itself is escaped when it lies in the escape set and never feeds the
accumulator). -/
theorem c6_at_command :
    atCommandBytes 0x52 0x4E 0x4A [] =
      [0x7E, 0x00, 0x04, 0x08, 0x52, 0x4E, 0x4A, 0x0D] ∧
    ∀ (fid c0 c1 : Nat) (param : List Nat),
      atCommandBytes fid c0 c1 param =
        startFrameBytes (4 + param.length) ++
        writeBytesOut (0x08 :: fid :: c0 :: c1 :: param) ++
        writeBytesOut [255 - (0x08 :: fid :: c0 :: c1 :: param).sum % 256] := by
  refine ⟨by decide, ?_⟩
  intro fid c0 c1 param
  have h0 : sumAccum 0 [0x08, fid, c0, c1] < 256 := by
    rw [sumAccum_eq _ 0 (by omega)]
    omega
  have h3 : 255 - (sumAccum (sumAccum 0 [0x08, fid, c0, c1]) param) % 256 =
      255 - (0x08 :: fid :: c0 :: c1 :: param).sum % 256 := by
    rw [sumAccum_eq param _ h0, sumAccum_eq _ 0 (by omega)]
    simp
    omega
  unfold atCommandBytes finishFrameBytes
  rw [show (0x08 :: fid :: c0 :: c1 :: param : List Nat) =
        [0x08, fid, c0, c1] ++ param from rfl,
      writeBytesOut_append, h3]
  simp [List.append_assoc]

/-- Pointwise form of the escape rule: the wire image of a byte is the
escape pair exactly for the four escape-set bytes. -/
lemma escByte_rule (b : Nat) : escByte b =
    if b = 0x7E ∨ b = 0x7D ∨ b = 0x11 ∨ b = 0x13
    then [0x7D, b ^^^ 0x20] else [b] := by
  unfold escByte needEscape
  by_cases h : b = 0x7E ∨ b = 0x7D ∨ b = 0x11 ∨ b = 0x13
  · rw [if_pos h]
    rcases h with rfl | rfl | rfl | rfl <;> decide
  · rw [if_neg h]
    push_neg at h
    obtain ⟨h1, h2, h3, h4⟩ := h
    simp [h1, h2, h3, h4]

/-- C7 counterexample: the S2 frame's final byte is 0x4E, not 0x4A
(0xFF - (0x08 + 0x11 + 0x4E + 0x4A) = 0xFF - 0xB1 = 0x4E). -/
theorem c7_counterexample :
    atCommandBytes 0x11 0x4E 0x4A [] ≠
      [0x7E, 0x00, 0x04, 0x08, 0x7D, 0x31, 0x4E, 0x4A, 0x4A] := by
  decide

/-- C7, amended: every byte written after the start delimiter that equals
0x7E, 0x7D, 0x11 or 0x13 is emitted as the pair 0x7D, byte XOR 0x20, and
every other byte literally (proved of the chunked writer xbee_write_bytes,
through which the length, payload and checksum bytes all pass); concretely
at_command(frame_id 0x11, NJ, empty) emits 7E 00 04 08 7D 31 4E 4A 4E. -/
theorem c7_escape_rule :
    (∀ bs : List Nat, writeBytesOut bs = bs.flatMap (fun b =>
      if b = 0x7E ∨ b = 0x7D ∨ b = 0x11 ∨ b = 0x13
      then [0x7D, b ^^^ 0x20] else [b])) ∧
    atCommandBytes 0x11 0x4E 0x4A [] =
      [0x7E, 0x00, 0x04, 0x08, 0x7D, 0x31, 0x4E, 0x4A, 0x4E] := by
  constructor
  · intro bs
    rw [writeBytesOut_eq,
        show escByte = (fun b => if b = 0x7E ∨ b = 0x7D ∨ b = 0x11 ∨ b = 0x13
          then [0x7D, b ^^^ 0x20] else [b]) from funext escByte_rule]
  · decide

lemma fillBuffer_nil (st : XbeeIf) : fillBuffer st [] = (0, st, []) := rfl

lemma fillBuffer_uart (st : XbeeIf) (uart : List ReadEvent) :
    uart.length ≤ (fillBuffer st uart).2.2.length + 2 := by
  unfold fillBuffer
  cases uart with
  | nil => simp
  | cons ev rest =>
    cases rest with
    | nil =>
      simp only
      repeat' split
      all_goals simp
    | cons ev2 rest2 =>
      simp only
      repeat' split
      all_goals simp

lemma fillBuffer_first (st : XbeeIf) (ev : ReadEvent) (rest : List ReadEvent) :
    0 ≤ (fillBuffer st (ev :: rest)).1 ∨ (fillBuffer st (ev :: rest)).1 = ev.ret := by
  unfold fillBuffer
  simp only
  repeat' split
  all_goals
    first
      | (right; rfl)
      | (left; simp only []; omega)

/-- C8 (confirmed): each xbee_recv_frame call consumes at most two transport
read outcomes (one xbee_fill_buffer invocation); a negative return value is
exactly the error code of the first transport read; a positive return value
is a value returned by xbee_decode_frame (either before or after the single
fill). -/
theorem c8_recv_frame_contract (st : XbeeIf) (uart : List ReadEvent)
    (fsize : Nat) (out : Nat → Nat) :
    uart.length ≤ (recvFrame st uart fsize out).2.2.2.length + 2 ∧
    ((recvFrame st uart fsize out).1 < 0 →
      ∃ ev rest, uart = ev :: rest ∧
        (recvFrame st uart fsize out).1 = ev.ret ∧ ev.ret < 0) ∧
    (0 < (recvFrame st uart fsize out).1 →
      (recvFrame st uart fsize out).1 = ((decodeFrame st fsize out).1 : Int) ∨
      (recvFrame st uart fsize out).1 =
        ((decodeFrame (fillBuffer (decodeFrame st fsize out).2.1 uart).2.1 fsize
          (decodeFrame st fsize out).2.2).1 : Int)) := by
  by_cases h1 : 0 < (decodeFrame st fsize out).1
  · simp only [recvFrame, if_pos h1]
    refine ⟨by omega, ?_, ?_⟩
    · intro hneg
      exfalso
      omega
    · intro _
      left
      trivial
  · simp only [recvFrame, if_neg h1]
    by_cases h2 : (fillBuffer (decodeFrame st fsize out).2.1 uart).1 < 0
    · simp only [if_pos h2]
      refine ⟨?_, ?_, ?_⟩
      · have := fillBuffer_uart (decodeFrame st fsize out).2.1 uart
        omega
      · intro _
        cases uart with
        | nil =>
          rw [fillBuffer_nil] at h2
          simp at h2
        | cons ev rest =>
          rcases fillBuffer_first (decodeFrame st fsize out).2.1 ev rest with h | h
          · exfalso
            omega
          · exact ⟨ev, rest, rfl, h, by omega⟩
      · intro hpos
        exfalso
        omega
    · simp only [if_neg h2]
      refine ⟨?_, ?_, ?_⟩
      · have := fillBuffer_uart (decodeFrame st fsize out).2.1 uart
        omega
      · intro hneg
        exfalso
        omega
      · intro _
        right
        trivial

/-- Witness for c8_recv_frame_contract: with an empty ring and a transport
whose first read reports error -5, recv_frame returns -5. -/
theorem c8_recv_frame_contract_witness :
    ∃ ev rest, ([⟨-5, fun _ => 0⟩] : List ReadEvent) = ev :: rest ∧
      (recvFrame (loadRing 8 []) [⟨-5, fun _ => 0⟩] 4 (fun _ => 0)).1 = ev.ret ∧
      ev.ret < 0 := by
  have h := c8_recv_frame_contract (loadRing 8 []) [⟨-5, fun _ => 0⟩] 4 (fun _ => 0)
  exact h.2.1 (by decide)
